import Mathlib

/-!
Verification development for the `hypha` networking plane:
a shallow embedding of `src/network/src/vbridge.rs` (the virtual bridge /
Switching Core) and `src/daemon/src/event.rs` (the lifecycle event
generator), together with theorems settling the specification claims.

Machine integers are embedded as `Nat`; a byte is a `Nat` that real inputs
keep below 256, a frame is a byte list. Fallible Rust code is embedded as
`Option`-returning functions or explicit result inductives.
-/

namespace Hypha

/-! ## Byte-level primitives -/

abbrev Frame := List Nat

/-- Big-endian decoding of two bytes into a 16-bit value. -/
def be16 (hi lo : Nat) : Nat := hi * 256 + lo

/-- One fuel-bounded step chain of end-around carry folding. -/
def foldCarryAux : Nat → Nat → Nat
  | 0, n => n
  | fuel + 1, n => if n < 65536 then n else foldCarryAux fuel (n % 65536 + n / 65536)

/-- End-around carry folding of a sum into 16 bits, as performed by the
internet-checksum accumulator (RFC 1071) used by `etherparse`: values of
at least 2^16 strictly decrease at each fold, so `n` itself bounds the
number of folds needed and the result is the fold fixed point. -/
def foldCarry (n : Nat) : Nat := foldCarryAux n n

/-- Big-endian 16-bit word sum of a byte sequence; an odd trailing byte is
padded with a zero byte, as in the internet checksum. -/
def wordSum : List Nat → Nat
  | [] => 0
  | [b] => b * 256
  | b1 :: b2 :: rest => b1 * 256 + b2 + wordSum rest

/-- The ones' complement of a folded 16-bit sum (`!sum` on `u16`). -/
def onesComplement16 (n : Nat) : Nat := 65535 - foldCarry n

/-! ## `etherparse` wire-format models

The bridge uses the `etherparse` crate (v0.14) for header parsing and
serialization. The definitions below embed exactly the parts `vbridge.rs`
calls: `Ethernet2Header::from_slice`, `Ipv4Header::from_slice`,
`TcpHeader::from_slice`, `TcpHeader::to_bytes` and
`TcpHeader::calc_checksum_ipv4`. -/

/-- `etherparse::Ethernet2Header`: 6-byte destination, 6-byte source and a
16-bit ether type. -/
structure Ethernet2Header where
  destination : List Nat
  source : List Nat
  ether_type : Nat
deriving DecidableEq

/-- `Ethernet2Header::LEN` (14 bytes). -/
def Ethernet2Header.LEN : Nat := 14

/-- `EtherType::IPV4` (0x0800). -/
def EtherTypeIPV4 : Nat := 2048

/-- `IpNumber::TCP` (6). -/
def IpNumberTCP : Nat := 6

/-- `Ethernet2Header::from_slice`: requires at least 14 bytes, returns the
header and the rest of the slice after the 14 header bytes. -/
def Ethernet2Header.from_slice (s : Frame) : Option (Ethernet2Header × Frame) :=
  if s.length < 14 then none
  else
    some ({ destination := s.take 6
            source := (s.drop 6).take 6
            ether_type := be16 (s.getD 12 0) (s.getD 13 0) }, s.drop 14)

/-- `etherparse::Ipv4Header`, restricted to the fields `vbridge.rs` uses:
the header-length field (IHL, in 4-byte words; `etherparse` stores the
options whose length determines `header_len() = ihl * 4`), the protocol
byte, and the 4-byte source and destination addresses. -/
structure Ipv4Header where
  ihl : Nat
  protocol : Nat
  source : List Nat
  destination : List Nat
deriving DecidableEq

/-- `Ipv4Header::header_len()`: the header length in bytes. -/
def Ipv4Header.header_len (h : Ipv4Header) : Nat := h.ihl * 4

/-- `Ipv4Header::from_slice`: requires at least 20 bytes, version 4,
IHL at least 5 and at least `ihl * 4` bytes available; returns the header
and the rest of the slice after the `ihl * 4` header bytes. -/
def Ipv4Header.from_slice (s : Frame) : Option (Ipv4Header × Frame) :=
  if s.length < 20 then none
  else if (s.getD 0 0) / 16 ≠ 4 then none
  else if (s.getD 0 0) % 16 < 5 then none
  else if s.length < ((s.getD 0 0) % 16) * 4 then none
  else
    some ({ ihl := (s.getD 0 0) % 16
            protocol := s.getD 9 0
            source := (s.drop 12).take 4
            destination := (s.drop 16).take 4 }, s.drop (((s.getD 0 0) % 16) * 4))

/-- `etherparse::TcpHeader`. `etherparse` decodes bytes 0–11 into
`source_port`, `destination_port`, `sequence_number` and
`acknowledgment_number` and re-serializes them to the identical big-endian
bytes; we keep those twelve bytes raw (`head12`). Nat 12 holds the data
offset in its high nibble and the NS flag in bit 0; the three reserved bits
in between are not represented in `etherparse::TcpHeader` and serialize as
zero. Nat 13 holds the CWR–FIN flag bits, which round-trip to the same
byte; `window`, `urgent` and `options` are kept raw for the same reason.
The checksum is the decoded 16-bit value, since the bridge overwrites it. -/
structure TcpHeader where
  head12 : List Nat
  data_offset : Nat
  ns : Bool
  flags : Nat
  window : List Nat
  checksum : Nat
  urgent : List Nat
  options : List Nat
deriving DecidableEq

/-- `TcpHeader::header_len()`: 20 bytes plus options. -/
def TcpHeader.header_len (t : TcpHeader) : Nat := 20 + t.options.length

/-- `TcpHeader::from_slice`: requires at least 20 bytes, a data offset of at
least 5, and at least `data_offset * 4` bytes available; returns the header
and the rest of the slice after the `data_offset * 4` header bytes. -/
def TcpHeader.from_slice (s : Frame) : Option (TcpHeader × Frame) :=
  if s.length < 20 then none
  else if (s.getD 12 0) / 16 < 5 then none
  else if s.length < ((s.getD 12 0) / 16) * 4 then none
  else
    some ({ head12 := s.take 12
            data_offset := (s.getD 12 0) / 16
            ns := (s.getD 12 0) % 2 = 1
            flags := s.getD 13 0
            window := (s.drop 14).take 2
            checksum := be16 (s.getD 16 0) (s.getD 17 0)
            urgent := (s.drop 18).take 2
            options := (s.drop 20).take (((s.getD 12 0) / 16) * 4 - 20) },
          s.drop (((s.getD 12 0) / 16) * 4))

/-- `TcpHeader::to_bytes`: serializes ports/sequence/acknowledgment
(bytes 0–11), then the data-offset byte with the NS flag (the three
reserved bits written as zero), the flag byte, window, checksum, urgent
pointer and options. -/
def TcpHeader.to_bytes (t : TcpHeader) : List Nat :=
  t.head12
    ++ [t.data_offset * 16 + (if t.ns then 1 else 0), t.flags]
    ++ t.window
    ++ [t.checksum / 256, t.checksum % 256]
    ++ t.urgent
    ++ t.options

/-- `TcpHeader::calc_checksum_ipv4`: fails when the TCP length
(header plus payload) exceeds the 16-bit pseudo-header length field;
otherwise the ones'-complement sum over the IPv4 pseudo-header (source,
destination, zero byte, protocol 6, TCP length), the TCP header with its
checksum field zeroed, and the payload. -/
def TcpHeader.calc_checksum_ipv4 (t : TcpHeader) (ip : Ipv4Header) (payload : Frame) :
    Option Nat :=
  if 65535 - t.header_len < payload.length then none
  else
    let tcpLen := t.header_len + payload.length
    some (onesComplement16 (wordSum
      (ip.source ++ ip.destination ++ [0, IpNumberTCP, tcpLen / 256, tcpLen % 256]
        ++ ({ t with checksum := 0 }).to_bytes ++ payload)))

/-! ## The virtual bridge (`src/network/src/vbridge.rs`)

`VirtualBridge::process` is a single task looping over a `select!` of the
broadcast-republish channel and the shared ingress queue. We embed one
loop iteration as a function of the bridge state and the selected event,
and a whole run as a fold over a list of selected events. -/

/-- `smoltcp::wire::EthernetAddress::is_multicast`: the group bit
(bit 0 of the first byte) is set. -/
def isMulticast (mac : List Nat) : Bool := (mac.getD 0 0) % 2 = 1

/-- The in-place write-back loop
`for (i, b) in tcp_header_bytes.iter().enumerate() { packet[off + i] = *b }`.
Rust indexing panics out of bounds; `List.set` is a no-op there, and the
in-bounds theorem for this loop is proved separately. -/
def writeBack (packet : Frame) (off : Nat) : List Nat → Frame
  | [] => packet
  | b :: rest => writeBack (packet.set off b) (off + 1) rest

/-- Outcome of the parsing/checksum-repair phase of one
`PacketReceived(Some(packet))` iteration (lines 118–143). -/
inductive PacketAction where
  /-- `Ethernet2Header::from_slice` failed: `debug!` log and `continue`. -/
  | dropBadEthernet
  /-- A `?` operator propagated an error out of `process`
  (IPv4 or TCP header parse failure, or checksum length overflow). -/
  | fatal
  /-- Parsing succeeded; destination resolution runs with the (possibly
  checksum-repaired) packet. -/
  | forward (destination : List Nat) (packet : Frame)
deriving DecidableEq

/-- Lines 118–143 of `vbridge.rs`: parse the Ethernet header (drop and
continue on failure); if the ether type is IPv4, parse the IPv4 header
(`?`), and if the protocol is TCP, parse the TCP header (`?`), recompute
its checksum (`?`) and write the serialized TCP header back into the
packet in place. -/
def processFrame (packet : Frame) : PacketAction :=
  match Ethernet2Header.from_slice packet with
  | none => .dropBadEthernet
  | some (header, payload) =>
    if header.ether_type = EtherTypeIPV4 then
      match Ipv4Header.from_slice payload with
      | none => .fatal
      | some (ipv4, payload2) =>
        if ipv4.protocol = IpNumberTCP then
          match TcpHeader.from_slice payload2 with
          | none => .fatal
          | some (tcp, payload3) =>
            match tcp.calc_checksum_ipv4 ipv4 payload3 with
            | none => .fatal
            | some c =>
              .forward header.destination
                (writeBack packet (Ethernet2Header.LEN + ipv4.header_len)
                  ({ tcp with checksum := c }).to_bytes)
        else .forward header.destination packet
    else .forward header.destination packet

/-- `FROM_BRIDGE_QUEUE_LEN` (the per-member egress queue capacity). -/
def FROM_BRIDGE_QUEUE_LEN : Nat := 50

/-- A registered `BridgeMember`'s egress channel as the switching loop can
observe it through `from_bridge_sender.try_send`: the queued frames, the
channel capacity, and whether the receiving side has been dropped. -/
structure MemberState where
  queue : List Frame
  capacity : Nat
  closed : Bool
deriving DecidableEq

/-- `tokio::sync::mpsc::Sender::try_send` succeeds exactly when the
receiver is alive and the bounded queue has spare capacity. -/
def MemberState.trySendOk (m : MemberState) : Bool :=
  !m.closed && decide (m.queue.length < m.capacity)

/-- The Member Registry (`HashMap<EthernetAddress, BridgeMember>`),
embedded as an association list with unique keys. -/
abbrev MemberMap := List (List Nat × MemberState)

/-- `HashMap::get` on the registry. -/
def lookupMember : MemberMap → List Nat → Option MemberState
  | [], _ => none
  | (k, v) :: rest, mac => if k = mac then some v else lookupMember rest mac

/-- Appending a frame to the egress queue of the member registered under
`mac` (the effect of a successful `try_send`). -/
def enqueueTo : MemberMap → List Nat → Frame → MemberMap
  | [], _, _ => []
  | (k, v) :: rest, mac, pkt =>
    if k = mac then (k, { v with queue := v.queue ++ [pkt] }) :: rest
    else (k, v) :: enqueueTo rest mac pkt

/-- The bridge state the switching loop reads and writes: the Member
Registry and the number of member-held broadcast subscriptions.
`process` itself owns `from_broadcast_receiver` for its whole run, so the
broadcast channel always has one further live receiver beyond these. -/
structure BridgeState where
  members : MemberMap
  memberSubscribers : Nat
deriving DecidableEq

/-- The `VirtualBridgeSelect` enum of `vbridge.rs` (the outcome of the
biased `select!`): a value (or lagging/closed error, mapped by `.ok()` to
`None`) from the broadcast-republish channel, or a packet (or channel
closure, as `None`) from the ingress queue. -/
inductive VirtualBridgeSelect where
  | BroadcastSent (x : Option Frame)
  | PacketReceived (x : Option Frame)
deriving DecidableEq

/-- How one loop iteration ends. -/
inductive StepResult where
  /-- The loop continues with the given state. -/
  | next (s : BridgeState)
  /-- `break`: `process` returns `Ok(())`. -/
  | terminated
  /-- A `?` operator propagated an error: `process` returns `Err`. -/
  | errored
deriving DecidableEq

/-- One iteration of the `loop` in `VirtualBridge::process`
(lines 110–172). A broadcast-republish arrival is drained with no action;
`None` from the ingress queue breaks the loop; a received packet goes
through `processFrame`, then destination resolution: a multicast
destination is published on the broadcast channel (`send` fails only when
no receiver is alive, and the loop's own `from_broadcast_receiver` always
is — the `+ 1`); a unicast destination is looked up in the registry, with
`try_send(...)?` on a hit and a silent drop on a miss. -/
def processStep (s : BridgeState) : VirtualBridgeSelect → StepResult
  | .BroadcastSent _ => .next s
  | .PacketReceived none => .terminated
  | .PacketReceived (some packet) =>
    match processFrame packet with
    | .dropBadEthernet => .next s
    | .fatal => .errored
    | .forward destination pkt =>
      if isMulticast destination then
        if s.memberSubscribers + 1 = 0 then .errored else .next s
      else
        match lookupMember s.members destination with
        | some member =>
          if member.trySendOk then .next { s with members := enqueueTo s.members destination pkt }
          else .errored
        | none => .next s

/-- How a finite run of the loop ends. -/
inductive RunResult where
  /-- All supplied events consumed; the loop is awaiting the next one. -/
  | pending (s : BridgeState)
  /-- `process` returned `Ok(())`. -/
  | terminated
  /-- `process` returned `Err`. -/
  | errored
deriving DecidableEq

/-- Running the switching loop over a finite sequence of selected events. -/
def processRun (s : BridgeState) : List VirtualBridgeSelect → RunResult
  | [] => .pending s
  | e :: es =>
    match processStep s e with
    | .next s' => processRun s' es
    | .terminated => .terminated
    | .errored => .errored

/-- The member record `VirtualBridge::join` inserts: a fresh bounded
egress channel of capacity `FROM_BRIDGE_QUEUE_LEN` whose receiver is held
by the returned handle. -/
def freshMember : MemberState :=
  { queue := [], capacity := FROM_BRIDGE_QUEUE_LEN, closed := false }

/-- Result of `VirtualBridge::join`: the registry after the call and
whether a handle was returned (`ok = false` embeds the
`Err(anyhow!("virtual bridge member ... already exists"))` return). -/
structure JoinResult where
  members : MemberMap
  ok : Bool
deriving DecidableEq

/-- `VirtualBridge::join` (lines 84–102): an occupied registry entry
returns the duplicate-member error before any mutation; a vacant entry
inserts the fresh member. -/
def VirtualBridge.join (members : MemberMap) (mac : List Nat) : JoinResult :=
  match lookupMember members mac with
  | some _ => { members := members, ok := false }
  | none => { members := (mac, freshMember) :: members, ok := true }

/-! ## The lifecycle event generator (`src/daemon/src/event.rs`) -/

/-- Modelled from the spec: `kratart::GuestInfo` is not part of the
excerpted sources; the spec describes each snapshot entry as "keyed by a
unique guest identifier and carrying an optional exit code", which is
exactly the part `DaemonEventGenerator::evaluate` reads
(`guest.uuid` and `guest.state.exit_code`). The 128-bit `Uuid` is
embedded as a `Nat`. -/
structure GuestState where
  exit_code : Option Int
deriving DecidableEq

/-- Modelled from the spec: a listed guest, keyed by its unique identifier
and carrying its state with an optional exit code. -/
structure GuestInfo where
  uuid : Nat
  state : GuestState
deriving DecidableEq

/-- `DaemonEvent` (`krata::control::watch_events_reply::Event`): the three
event kinds `evaluate` emits. The Rust events carry `uuid.to_string()`;
since `to_string` is injective on UUIDs the identifier is embedded as the
UUID itself. -/
inductive DaemonEvent where
  | GuestLaunched (guest_id : Nat)
  | GuestDestroyed (guest_id : Nat)
  | GuestExited (guest_id : Nat) (code : Int)
deriving DecidableEq

/-- A `HashMap<Uuid, GuestInfo>` embedded as an association list with
unique keys. -/
abbrev GuestMap := List (Nat × GuestInfo)

/-- `HashMap::insert`: replace the entry of an existing key, otherwise
add a new entry. -/
def hmInsert : GuestMap → Nat → GuestInfo → GuestMap
  | [], k, v => [(k, v)]
  | (k', v') :: rest, k, v =>
    if k' = k then (k, v) :: rest else (k', v') :: hmInsert rest k v

/-- `HashMap::get`. -/
def hmLookup : GuestMap → Nat → Option GuestInfo
  | [], _ => none
  | (k', v') :: rest, k => if k' = k then some v' else hmLookup rest k

/-- The key list of a guest map. -/
def hmKeys (m : GuestMap) : List Nat := m.map Prod.fst

/-- Lines 46–52 of `event.rs`: building the snapshot map by inserting
every listed guest keyed by its UUID (later duplicates overwrite). -/
def snapshotMap (listed : List GuestInfo) : GuestMap :=
  listed.foldl (fun m g => hmInsert m g.uuid g) []

/-- The guest-launched loop (lines 56–62): one event per key of the new
snapshot that is absent from the previous one. -/
def launchedEvents (last guests : GuestMap) : List DaemonEvent :=
  guests.filterMap fun kv =>
    if hmLookup last kv.1 = none then some (DaemonEvent.GuestLaunched kv.1) else none

/-- The guest-destroyed loop (lines 64–70): one event per key of the
previous snapshot that is absent from the new one. -/
def destroyedEvents (last guests : GuestMap) : List DaemonEvent :=
  last.filterMap fun kv =>
    if hmLookup guests kv.1 = none then some (DaemonEvent.GuestDestroyed kv.1) else none

/-- The guest-exited loop (lines 72–89): one event per entry of the new
snapshot whose key was present before with no exit code and now has one. -/
def exitedEvents (last guests : GuestMap) : List DaemonEvent :=
  guests.filterMap fun kv =>
    match hmLookup last kv.1 with
    | none => none
    | some l =>
      if l.state.exit_code.isSome then none
      else
        match kv.2.state.exit_code with
        | none => none
        | some code => some (DaemonEvent.GuestExited kv.1 code)

/-- Result of one `evaluate` call: the events sent (in emission order:
launched, destroyed, exited) and the stored `self.last` snapshot. -/
structure EvalResult where
  events : List DaemonEvent
  last : GuestMap
deriving DecidableEq

/-- `DaemonEventGenerator::evaluate` (lines 44–98), as a pure function of
the previous snapshot map and the freshly listed guests. The broadcast
`send` of each event is best-effort (`let _ = ...`) and does not affect
state. -/
def DaemonEventGenerator.evaluate (last : GuestMap) (listed : List GuestInfo) : EvalResult :=
  let guests := snapshotMap listed
  { events := launchedEvents last guests ++ destroyedEvents last guests
      ++ exitedEvents last guests
    last := guests }

/-- Repeated `evaluate` calls, as performed by the loop in `launch`, over
a finite sequence of listed-guest snapshots, collecting every emitted
event in order. -/
def evaluateRun (last : GuestMap) : List (List GuestInfo) → List DaemonEvent
  | [] => []
  | listed :: rest =>
    let r := DaemonEventGenerator.evaluate last listed
    r.events ++ evaluateRun r.last rest

/-- Whether a snapshot records an exit code for the guest `u`. -/
def exitPresent (u : Nat) (listed : List GuestInfo) : Bool :=
  match hmLookup (snapshotMap listed) u with
  | some g => g.state.exit_code.isSome
  | none => false

/-- The number of guest-exited events for guest `u` in an event list. -/
def countExited (u : Nat) (events : List DaemonEvent) : Nat :=
  events.countP fun e =>
    match e with
    | DaemonEvent.GuestExited u' _ => u' = u
    | _ => false

/-! ## Spec-side checksum formula

The specification describes the repaired checksum as the ones'-complement
checksum over the pseudo-header, the original TCP header bytes with the
checksum field zeroed, and the payload. This definition follows the
spec's words, to be compared with the code-side
`TcpHeader.calc_checksum_ipv4`. -/

/-- The RFC 791/793 checksum the spec prescribes: pseudo-header (source
and destination IPv4 address, protocol number 6, TCP segment length),
then the TCP header bytes with the 2-byte checksum field (bytes 16–17)
zeroed, then the payload. -/
def tcpChecksumSpec (ip : Ipv4Header) (tcpHeaderBytes payload : Frame) : Nat :=
  let tcpLen := tcpHeaderBytes.length + payload.length
  onesComplement16 (wordSum
    (ip.source ++ ip.destination ++ [0, IpNumberTCP, tcpLen / 256, tcpLen % 256]
      ++ (tcpHeaderBytes.take 16 ++ [0, 0] ++ tcpHeaderBytes.drop 18) ++ payload))

/-- The packet the Switching Core forwards for a given submitted packet,
when it forwards one (`none` when the frame is dropped or the loop errors). -/
def forwardedPacket (pkt : Frame) : Option Frame :=
  match processFrame pkt with
  | .forward _ out => some out
  | _ => none

/-! ## Concrete fixtures used by witnesses and counterexamples -/

/-- A bridge state with no members and no member broadcast subscribers. -/
def emptyBridgeState : BridgeState := { members := [], memberSubscribers := 0 }

/-- The unicast address 02:00:00:00:00:02. -/
def macB : List Nat := [2, 0, 0, 0, 0, 2]

/-- A well-formed non-IPv4 (ARP ether type 0x0806) frame addressed to `macB`. -/
def arpFrame : Frame := [2,0,0,0,0,2, 2,0,0,0,0,1, 8,6, 1,2,3]

/-- A 3-byte frame: too short for an Ethernet header. -/
def shortFrame : Frame := [1, 2, 3]

/-- A broadcast-destination frame (ff:ff:ff:ff:ff:ff, ether type 0x0806). -/
def bcastFrame : Frame := [255,255,255,255,255,255, 2,0,0,0,0,1, 8,6, 1]

/-- An exactly-14-byte frame with ether type IPv4 and an empty (hence
malformed) IPv4 payload. -/
def badIpv4Frame : Frame := [2,0,0,0,0,2, 2,0,0,0,0,1, 8,0]

/-- A frame with valid Ethernet and IPv4 (protocol TCP) headers whose TCP
payload is 10 bytes: too short for a TCP header. -/
def badTcpFrame : Frame :=
  [2,0,0,0,0,2, 2,0,0,0,0,1, 8,0,
   69,0, 0,30, 0,0, 0,0, 64, 6, 0,0, 10,0,0,1, 10,0,0,2,
   0,80, 0,81, 0,0,0,0, 0,0]

/-- A well-formed TCP-over-IPv4 frame (54 bytes, 20-byte IPv4 header,
20-byte TCP header, empty payload, zero checksum on submission). -/
def tcpFrame : Frame :=
  [2,0,0,0,0,2, 2,0,0,0,0,1, 8,0,
   69,0, 0,40, 0,0, 0,0, 64, 6, 0,0, 10,0,0,1, 10,0,0,2,
   0,80, 0,81, 0,0,0,0, 0,0,0,0, 80, 16, 0,100, 0,0, 0,0]

/-- `tcpFrame` with the three reserved TCP header bits set: byte 46
(TCP header byte 12) is 0x5E instead of 0x50. -/
def rsvdFrame : Frame :=
  [2,0,0,0,0,2, 2,0,0,0,0,1, 8,0,
   69,0, 0,40, 0,0, 0,0, 64, 6, 0,0, 10,0,0,1, 10,0,0,2,
   0,80, 0,81, 0,0,0,0, 0,0,0,0, 94, 16, 0,100, 0,0, 0,0]

/-- The Ethernet header of `tcpFrame` as parsed. -/
def tcpFrameEth : Ethernet2Header :=
  { destination := [2, 0, 0, 0, 0, 2], source := [2, 0, 0, 0, 0, 1], ether_type := 2048 }

/-- The bytes of `tcpFrame` after the Ethernet header. -/
def tcpFrameIpBytes : Frame :=
  [69,0, 0,40, 0,0, 0,0, 64, 6, 0,0, 10,0,0,1, 10,0,0,2,
   0,80, 0,81, 0,0,0,0, 0,0,0,0, 80, 16, 0,100, 0,0, 0,0]

/-- The IPv4 header of `tcpFrame` as parsed. -/
def tcpFrameIp : Ipv4Header :=
  { ihl := 5, protocol := 6, source := [10, 0, 0, 1], destination := [10, 0, 0, 2] }

/-- The bytes of `tcpFrame` after the IPv4 header (its 20-byte TCP header). -/
def tcpFrameTcpBytes : Frame :=
  [0,80, 0,81, 0,0,0,0, 0,0,0,0, 80, 16, 0,100, 0,0, 0,0]

/-- The TCP header of `tcpFrame` as parsed. -/
def tcpFrameTcp : TcpHeader :=
  { head12 := [0, 80, 0, 81, 0, 0, 0, 0, 0, 0, 0, 0], data_offset := 5, ns := false
    flags := 16, window := [0, 100], checksum := 0, urgent := [0, 0], options := [] }

/-- The Ethernet header of `arpFrame` as parsed. -/
def arpFrameEth : Ethernet2Header :=
  { destination := [2, 0, 0, 0, 0, 2], source := [2, 0, 0, 0, 0, 1], ether_type := 2054 }

/-- A member whose 50-slot egress queue is completely full. -/
def fullMember : MemberState :=
  { queue := List.replicate 50 [], capacity := FROM_BRIDGE_QUEUE_LEN, closed := false }

/-- A bridge state where `macB` is registered with a full egress queue. -/
def fullQueueState : BridgeState :=
  { members := [(macB, fullMember)], memberSubscribers := 0 }

/-- A bridge state where `macB` is registered with an empty egress queue. -/
def oneMemberState : BridgeState :=
  { members := [(macB, freshMember)], memberSubscribers := 0 }

/-- A run of guest-list snapshots: guest 1 stays present, running at
first, then exited with code 3 in the last two snapshots. -/
def snapsFixture : List (List GuestInfo) :=
  [[{ uuid := 1, state := { exit_code := none } }],
   [{ uuid := 1, state := { exit_code := some 3 } }],
   [{ uuid := 1, state := { exit_code := some 3 } }]]

/-! ## Switching-loop lemmas -/

/-- An Ethernet parse failure makes the iteration continue unchanged. -/
theorem processStep_dropBadEthernet (s : BridgeState) (pkt : Frame)
    (h : Ethernet2Header.from_slice pkt = none) :
    processStep s (.PacketReceived (some pkt)) = .next s := by
  simp [processStep, processFrame, h]

/-- A malformed IPv4 header inside an IPv4 frame errors the loop. -/
theorem processStep_badIpv4 (s : BridgeState) (pkt : Frame) (h : Ethernet2Header × Frame)
    (h1 : Ethernet2Header.from_slice pkt = some h) (h2 : h.1.ether_type = EtherTypeIPV4)
    (h3 : Ipv4Header.from_slice h.2 = none) :
    processStep s (.PacketReceived (some pkt)) = .errored := by
  simp [processStep, processFrame, h1, h2, h3]

/-- A malformed TCP header inside a TCP-over-IPv4 frame errors the loop. -/
theorem processStep_badTcp (s : BridgeState) (pkt : Frame) (h : Ethernet2Header × Frame)
    (ip : Ipv4Header × Frame)
    (h1 : Ethernet2Header.from_slice pkt = some h) (h2 : h.1.ether_type = EtherTypeIPV4)
    (h3 : Ipv4Header.from_slice h.2 = some ip) (h4 : ip.1.protocol = IpNumberTCP)
    (h5 : TcpHeader.from_slice ip.2 = none) :
    processStep s (.PacketReceived (some pkt)) = .errored := by
  simp [processStep, processFrame, h1, h2, h3, h4, h5]

/-- A forwarded multicast frame continues the loop with unchanged state:
the loop's own broadcast receiver keeps the channel alive. -/
theorem processStep_multicast (s : BridgeState) (pkt pkt' : Frame) (dest : List Nat)
    (hfwd : processFrame pkt = .forward dest pkt') (hmc : isMulticast dest = true) :
    processStep s (.PacketReceived (some pkt)) = .next s := by
  simp [processStep, hfwd, hmc]

/-- A step produces a clean break exactly on `None` from the ingress queue. -/
theorem processStep_terminated_iff (s : BridgeState) (e : VirtualBridgeSelect) :
    processStep s e = .terminated ↔ e = .PacketReceived none := by
  constructor
  · intro h
    match e with
    | .BroadcastSent x => simp [processStep] at h
    | .PacketReceived none => rfl
    | .PacketReceived (some pkt) =>
      exfalso
      simp only [processStep] at h
      cases hp : processFrame pkt <;> rw [hp] at h
      · simp at h
      · simp at h
      · rename_i dest pkt'
        by_cases hmc : isMulticast dest
        · simp [hmc] at h
        · simp [hmc] at h
          cases hlk : lookupMember s.members dest <;> rw [hlk] at h
          · simp at h
          · rename_i m
            by_cases hok : m.trySendOk = true
            · simp [hok] at h
            · simp [hok] at h
  · intro h
    subst h
    rfl

/-- A step errors only while handling a frame received from the ingress
queue. -/
theorem processStep_errored_source (s : BridgeState) (e : VirtualBridgeSelect)
    (h : processStep s e = .errored) : ∃ pkt : Frame, e = .PacketReceived (some pkt) := by
  match e with
  | .BroadcastSent x => simp [processStep] at h
  | .PacketReceived none => simp [processStep] at h
  | .PacketReceived (some pkt) => exact ⟨pkt, rfl⟩

/-- A run reaches the clean `Ok(())` exit only if the ingress queue
yielded `None` at some point. -/
theorem processRun_terminated_mem (s : BridgeState) (evts : List VirtualBridgeSelect)
    (h : processRun s evts = .terminated) :
    VirtualBridgeSelect.PacketReceived none ∈ evts := by
  induction evts generalizing s with
  | nil => simp [processRun] at h
  | cons e es ih =>
    simp only [processRun] at h
    cases hs : processStep s e with
    | next s' =>
      rw [hs] at h
      exact List.mem_cons_of_mem _ (ih s' h)
    | terminated =>
      have := (processStep_terminated_iff s e).mp hs
      subst this
      exact List.mem_cons_self _ _
    | errored => rw [hs] at h; simp at h

/-- Looking up the enqueue target after a successful `try_send`. -/
theorem lookupMember_enqueueTo_self (members : MemberMap) (mac : List Nat) (pkt : Frame)
    (m : MemberState) (h : lookupMember members mac = some m) :
    lookupMember (enqueueTo members mac pkt) mac =
      some { m with queue := m.queue ++ [pkt] } := by
  induction members with
  | nil => simp [lookupMember] at h
  | cons kv rest ih =>
    obtain ⟨k, v⟩ := kv
    by_cases hk : k = mac
    · subst hk
      simp [lookupMember] at h
      subst h
      simp [enqueueTo, lookupMember]
    · simp [lookupMember, hk] at h
      simp [enqueueTo, lookupMember, hk]
      exact ih h

/-- Enqueueing onto one member leaves every other address's registry
entry untouched. -/
theorem lookupMember_enqueueTo_other (members : MemberMap) (mac other : List Nat)
    (pkt : Frame) (h : other ≠ mac) :
    lookupMember (enqueueTo members mac pkt) other = lookupMember members other := by
  induction members with
  | nil => simp [enqueueTo]
  | cons kv rest ih =>
    obtain ⟨k, v⟩ := kv
    by_cases hk : k = mac
    · subst hk
      simp [enqueueTo, lookupMember, Ne.symm h]
    · by_cases ho : k = other
      · subst ho
        simp [enqueueTo, lookupMember, hk]
      · simp [enqueueTo, lookupMember, hk, ho]
        exact ih

/-- A forwarded unicast frame whose destination is registered with a
working egress queue is enqueued there and the loop continues. -/
theorem processStep_unicast_hit (s : BridgeState) (pkt pkt' : Frame) (dest : List Nat)
    (m : MemberState) (hfwd : processFrame pkt = .forward dest pkt')
    (hmc : isMulticast dest = false) (hlk : lookupMember s.members dest = some m)
    (hok : m.trySendOk = true) :
    processStep s (.PacketReceived (some pkt)) =
      .next { s with members := enqueueTo s.members dest pkt' } := by
  simp [processStep, hfwd, hmc, hlk, hok]

/-- A forwarded unicast frame whose destination is registered but whose
egress `try_send` fails errors the loop. -/
theorem processStep_unicast_full (s : BridgeState) (pkt pkt' : Frame) (dest : List Nat)
    (m : MemberState) (hfwd : processFrame pkt = .forward dest pkt')
    (hmc : isMulticast dest = false) (hlk : lookupMember s.members dest = some m)
    (hfail : m.trySendOk = false) :
    processStep s (.PacketReceived (some pkt)) = .errored := by
  simp [processStep, hfwd, hmc, hlk, hfail]

/-- A forwarded unicast frame with an unregistered destination is dropped
silently: the loop continues with unchanged state. -/
theorem processStep_unicast_miss (s : BridgeState) (pkt pkt' : Frame) (dest : List Nat)
    (hfwd : processFrame pkt = .forward dest pkt') (hmc : isMulticast dest = false)
    (hlk : lookupMember s.members dest = none) :
    processStep s (.PacketReceived (some pkt)) = .next s := by
  simp [processStep, hfwd, hmc, hlk]

/-! ## Claim theorems: switching-loop error handling -/

/-- C1: the claim fails on the code. With 02:00:00:00:00:02 registered and
its 50-slot egress queue full, the failing non-blocking enqueue
(`member.from_bridge_sender.try_send(packet)?`) propagates through `?` and
the Switching Core's processing loop exits with an error instead of
treating the egress-full condition as a recoverable per-frame drop. -/
theorem C1_egress_full_fatal :
    processStep fullQueueState (.PacketReceived (some arpFrame)) = .errored := by
  rfl

/-- C2 counterexample: a 14-byte frame whose Ethernet header parses with
ether type IPv4 but whose IPv4 payload is empty (malformed IPv4 header) is
not dropped with the loop continuing: the iteration errors the loop. -/
theorem C2_counterexample :
    (Ethernet2Header.from_slice badIpv4Frame).isSome = true ∧
    processStep emptyBridgeState (.PacketReceived (some badIpv4Frame)) = .errored := by
  exact ⟨rfl, rfl⟩

/-- C2 (amended): a frame whose Ethernet header fails to parse is dropped
and the loop continues with unchanged state; but inside a frame whose
ether type is IPv4, a malformed IPv4 header — or, for protocol TCP, a
malformed TCP header — propagates through `?` and terminates the
Switching Core's loop with an error. -/
theorem C2_malformed_frame_policy :
    (∀ (s : BridgeState) (pkt : Frame), Ethernet2Header.from_slice pkt = none →
       processStep s (.PacketReceived (some pkt)) = .next s) ∧
    (∀ (s : BridgeState) (pkt : Frame) (h : Ethernet2Header × Frame),
       Ethernet2Header.from_slice pkt = some h → h.1.ether_type = EtherTypeIPV4 →
       Ipv4Header.from_slice h.2 = none →
       processStep s (.PacketReceived (some pkt)) = .errored) ∧
    (∀ (s : BridgeState) (pkt : Frame) (h : Ethernet2Header × Frame)
       (ip : Ipv4Header × Frame),
       Ethernet2Header.from_slice pkt = some h → h.1.ether_type = EtherTypeIPV4 →
       Ipv4Header.from_slice h.2 = some ip → ip.1.protocol = IpNumberTCP →
       TcpHeader.from_slice ip.2 = none →
       processStep s (.PacketReceived (some pkt)) = .errored) :=
  ⟨processStep_dropBadEthernet, processStep_badIpv4, processStep_badTcp⟩

/-- C2 witness: a 3-byte frame is dropped with the loop continuing; a
frame with a well-formed IPv4/TCP envelope but a 10-byte TCP header
errors the loop. -/
theorem C2_witness :
    processStep emptyBridgeState (.PacketReceived (some shortFrame)) = .next emptyBridgeState ∧
    processStep emptyBridgeState (.PacketReceived (some badTcpFrame)) = .errored :=
  ⟨C2_malformed_frame_policy.1 emptyBridgeState shortFrame rfl,
   C2_malformed_frame_policy.2.2 emptyBridgeState badTcpFrame _ _ rfl rfl rfl rfl rfl⟩

/-- C3: publishing a frame with a multicast/broadcast destination when no
member subscriber exists is a benign no-op: `process` itself holds the
`from_broadcast_receiver` end of the channel for its whole run, so the
publish cannot fail and the loop continues with unchanged state. -/
theorem C3_broadcast_no_subscribers (s : BridgeState) (pkt pkt' : Frame) (dest : List Nat)
    (hsub : s.memberSubscribers = 0) (hfwd : processFrame pkt = .forward dest pkt')
    (hmc : isMulticast dest = true) :
    processStep s (.PacketReceived (some pkt)) = .next s :=
  processStep_multicast s pkt pkt' dest hfwd hmc

/-- C3 witness: a broadcast frame on a bridge with no members and no
subscribers continues the loop. -/
theorem C3_witness :
    processStep emptyBridgeState (.PacketReceived (some bcastFrame)) = .next emptyBridgeState :=
  C3_broadcast_no_subscribers emptyBridgeState bcastFrame bcastFrame
    [255, 255, 255, 255, 255, 255] rfl rfl rfl

/-- C5: `join` fails with the duplicate-member error exactly when the
address is already registered, and on failure the registry is unchanged —
in particular the earlier member's entry and queue state are untouched. -/
theorem C5_join_duplicate (members : MemberMap) (mac : List Nat) :
    ((VirtualBridge.join members mac).ok = false ↔ (lookupMember members mac).isSome = true) ∧
    ((lookupMember members mac).isSome = true →
       VirtualBridge.join members mac = { members := members, ok := false }) := by
  unfold VirtualBridge.join
  cases h : lookupMember members mac <;> simp

/-- C5 witness: joining 02:00:00:00:00:02 twice fails the second call and
leaves the registry exactly as it was. -/
theorem C5_witness :
    VirtualBridge.join [(macB, freshMember)] macB =
      { members := [(macB, freshMember)], ok := false } :=
  (C5_join_duplicate [(macB, freshMember)] macB).2 rfl

/-- C6 counterexample: a run that never receives `None` from the ingress
queue still exits — with an error — when a registered destination's
egress queue is full, so the loop does not exit only on ingress closure. -/
theorem C6_counterexample :
    processRun fullQueueState [.PacketReceived (some arpFrame)] = .errored ∧
    VirtualBridgeSelect.PacketReceived (some arpFrame) ≠
      VirtualBridgeSelect.PacketReceived none := by
  exact ⟨rfl, by simp⟩

/-- C6 (amended): the loop's clean `Ok(())` exit happens exactly on `None`
from the ingress queue, and a run reaching it must have received such a
`None`; however per-frame `?` failures (malformed IPv4/TCP headers,
checksum length overflow, failed egress enqueue) exit the loop with an
error, and any such error exit occurs only while handling a frame
received from the ingress queue. -/
theorem C6_termination_paths :
    (∀ (s : BridgeState) (e : VirtualBridgeSelect),
       processStep s e = .terminated ↔ e = .PacketReceived none) ∧
    (∀ (s : BridgeState) (evts : List VirtualBridgeSelect),
       processRun s evts = .terminated → VirtualBridgeSelect.PacketReceived none ∈ evts) ∧
    (∀ (s : BridgeState) (e : VirtualBridgeSelect),
       processStep s e = .errored → ∃ pkt : Frame, e = .PacketReceived (some pkt)) :=
  ⟨processStep_terminated_iff, processRun_terminated_mem, processStep_errored_source⟩

/-- C6 witness: a run that terminates cleanly contains the ingress `None`. -/
theorem C6_witness :
    VirtualBridgeSelect.PacketReceived none ∈ [VirtualBridgeSelect.PacketReceived none] :=
  C6_termination_paths.2.1 emptyBridgeState [VirtualBridgeSelect.PacketReceived none] rfl

/-- C7: for a forwarded frame with a non-multicast destination, the loop
looks the destination up in the Member Registry: on a hit (with a working
egress queue) the frame is appended to exactly that member's egress queue
and every other registry entry is unchanged; on a miss the frame is
dropped silently and the loop continues with completely unchanged state. -/
theorem C7_unicast_destination_resolution (s : BridgeState) (pkt pkt' : Frame)
    (dest : List Nat) (hfwd : processFrame pkt = .forward dest pkt')
    (hmc : isMulticast dest = false) :
    (∀ m : MemberState, lookupMember s.members dest = some m → m.trySendOk = true →
       processStep s (.PacketReceived (some pkt)) =
         .next { s with members := enqueueTo s.members dest pkt' } ∧
       lookupMember (enqueueTo s.members dest pkt') dest =
         some { m with queue := m.queue ++ [pkt'] } ∧
       ∀ other : List Nat, other ≠ dest →
         lookupMember (enqueueTo s.members dest pkt') other = lookupMember s.members other) ∧
    (lookupMember s.members dest = none →
       processStep s (.PacketReceived (some pkt)) = .next s) := by
  refine ⟨fun m hlk hok => ⟨?_, ?_, ?_⟩, fun hlk => ?_⟩
  · exact processStep_unicast_hit s pkt pkt' dest m hfwd hmc hlk hok
  · exact lookupMember_enqueueTo_self s.members dest pkt' m hlk
  · exact fun other hne => lookupMember_enqueueTo_other s.members dest other pkt' hne
  · exact processStep_unicast_miss s pkt pkt' dest hfwd hmc hlk

/-- C7 witness: with 02:00:00:00:00:02 registered and room in its queue,
a frame addressed to it is enqueued there and the loop continues. -/
theorem C7_witness :
    processStep oneMemberState (.PacketReceived (some arpFrame)) =
      .next { oneMemberState with members := enqueueTo oneMemberState.members macB arpFrame } :=
  ((C7_unicast_destination_resolution oneMemberState arpFrame arpFrame macB rfl rfl).1
    freshMember rfl rfl).1

/-! ## Guest-map lemmas -/

theorem hmLookup_eq_none_iff (m : GuestMap) (u : Nat) :
    hmLookup m u = none ↔ u ∉ hmKeys m := by
  induction m with
  | nil => simp [hmLookup, hmKeys]
  | cons kv rest ih =>
    obtain ⟨k, v⟩ := kv
    by_cases hk : k = u
    · subst hk
      simp [hmLookup, hmKeys]
    · simp [hmLookup, hmKeys, hk, ih, Ne.symm hk]

theorem hmLookup_isSome_of_mem_keys (m : GuestMap) (u : Nat) (h : u ∈ hmKeys m) :
    ∃ v, hmLookup m u = some v := by
  cases hlk : hmLookup m u with
  | none => exact absurd h ((hmLookup_eq_none_iff m u).mp hlk)
  | some v => exact ⟨v, rfl⟩

theorem mem_of_hmLookup_some (m : GuestMap) (u : Nat) (v : GuestInfo)
    (h : hmLookup m u = some v) : (u, v) ∈ m := by
  induction m with
  | nil => simp [hmLookup] at h
  | cons kv rest ih =>
    obtain ⟨k, v'⟩ := kv
    by_cases hk : k = u
    · subst hk
      simp [hmLookup] at h
      subst h
      exact List.mem_cons_self _ _
    · simp [hmLookup, hk] at h
      exact List.mem_cons_of_mem _ (ih h)

theorem keys_mem_of_mem (m : GuestMap) (u : Nat) (v : GuestInfo) (h : (u, v) ∈ m) :
    u ∈ hmKeys m :=
  List.mem_map_of_mem Prod.fst h

theorem hmLookup_of_mem_nodup (m : GuestMap) (u : Nat) (v : GuestInfo)
    (hnd : (hmKeys m).Nodup) (h : (u, v) ∈ m) : hmLookup m u = some v := by
  induction m with
  | nil => simp at h
  | cons kv rest ih =>
    obtain ⟨k, v'⟩ := kv
    simp only [hmKeys, List.map_cons, List.nodup_cons] at hnd
    rcases List.mem_cons.mp h with h1 | h1
    · obtain ⟨h2, h3⟩ := Prod.mk.injEq .. ▸ h1
      subst h2
      subst h3
      simp [hmLookup]
    · have hku : k ≠ u := by
        intro e
        subst e
        exact hnd.1 (keys_mem_of_mem rest k v h1)
      simp only [hmLookup, hku, if_false]
      exact ih hnd.2 h1

theorem hmKeys_cons (k : Nat) (v : GuestInfo) (rest : GuestMap) :
    hmKeys ((k, v) :: rest) = k :: hmKeys rest := rfl

theorem mem_keys_hmInsert (m : GuestMap) (k : Nat) (v : GuestInfo) (a : Nat) :
    a ∈ hmKeys (hmInsert m k v) ↔ a = k ∨ a ∈ hmKeys m := by
  induction m with
  | nil => simp [hmInsert, hmKeys]
  | cons kv rest ih =>
    obtain ⟨k', v'⟩ := kv
    by_cases hk : k' = k
    · subst hk
      simp only [hmInsert, eq_self_iff_true, ite_true, hmKeys_cons, List.mem_cons]
      tauto
    · simp only [hmInsert, if_neg hk, hmKeys_cons, List.mem_cons, ih]
      tauto

theorem hmInsert_keys_nodup (m : GuestMap) (k : Nat) (v : GuestInfo)
    (h : (hmKeys m).Nodup) : (hmKeys (hmInsert m k v)).Nodup := by
  induction m with
  | nil => simp [hmInsert, hmKeys]
  | cons kv rest ih =>
    obtain ⟨k', v'⟩ := kv
    simp only [hmKeys, List.map_cons, List.nodup_cons] at h
    by_cases hk : k' = k
    · subst hk
      simp only [hmInsert, eq_self_iff_true, ite_true, hmKeys, List.map_cons, List.nodup_cons]
      exact ⟨h.1, h.2⟩
    · simp only [hmInsert, if_neg hk, hmKeys, List.map_cons, List.nodup_cons]
      refine ⟨?_, ih h.2⟩
      rw [show (List.map Prod.fst (hmInsert rest k v) : List Nat) = hmKeys (hmInsert rest k v) from rfl,
        mem_keys_hmInsert]
      push_neg
      exact ⟨hk, h.1⟩

theorem snapshotMap_keys_nodup (listed : List GuestInfo) :
    (hmKeys (snapshotMap listed)).Nodup := by
  have general : ∀ (l : List GuestInfo) (acc : GuestMap), (hmKeys acc).Nodup →
      (hmKeys (l.foldl (fun m g => hmInsert m g.uuid g) acc)).Nodup := by
    intro l
    induction l with
    | nil =>
      intro acc h
      simpa using h
    | cons g rest ih =>
      intro acc h
      exact ih _ (hmInsert_keys_nodup acc g.uuid g h)
  simpa [snapshotMap] using general listed [] (by simp [hmKeys])

/-! ## Event-list lemmas -/

theorem mem_launched_shape (last m : GuestMap) (e : DaemonEvent)
    (he : e ∈ launchedEvents last m) : ∃ u, e = DaemonEvent.GuestLaunched u := by
  rcases List.mem_filterMap.mp he with ⟨kv, _, hkv⟩
  split at hkv
  · exact ⟨kv.1, (Option.some.injEq .. ▸ hkv).symm⟩
  · cases hkv

theorem mem_destroyed_shape (last m : GuestMap) (e : DaemonEvent)
    (he : e ∈ destroyedEvents last m) : ∃ u, e = DaemonEvent.GuestDestroyed u := by
  rcases List.mem_filterMap.mp he with ⟨kv, _, hkv⟩
  split at hkv
  · exact ⟨kv.1, (Option.some.injEq .. ▸ hkv).symm⟩
  · cases hkv

theorem mem_exited_shape (last m : GuestMap) (e : DaemonEvent)
    (he : e ∈ exitedEvents last m) :
    ∃ (u : Nat) (c : Int) (g l : GuestInfo), e = DaemonEvent.GuestExited u c ∧
      (u, g) ∈ m ∧ hmLookup last u = some l ∧ l.state.exit_code = none ∧
      g.state.exit_code = some c := by
  rcases List.mem_filterMap.mp he with ⟨kv, hmem, hkv⟩
  cases hl : hmLookup last kv.1 with
  | none => rw [hl] at hkv; cases hkv
  | some l =>
    rw [hl] at hkv
    by_cases hls : l.state.exit_code.isSome
    · simp only [hls, ite_true] at hkv
      cases hkv
    · simp only [hls, Bool.false_eq_true, ite_false] at hkv
      cases hg : kv.2.state.exit_code with
      | none => rw [hg] at hkv; cases hkv
      | some c =>
        rw [hg] at hkv
        refine ⟨kv.1, c, kv.2, l, (Option.some.injEq .. ▸ hkv).symm, hmem, hl,
          Option.not_isSome_iff_eq_none.mp (by simpa using hls), hg⟩

theorem launched_mem_iff (last m : GuestMap) (u : Nat) :
    DaemonEvent.GuestLaunched u ∈ launchedEvents last m ↔
      u ∈ hmKeys m ∧ hmLookup last u = none := by
  constructor
  · intro he
    rcases List.mem_filterMap.mp he with ⟨kv, hmem, hkv⟩
    split at hkv
    · have hu : kv.1 = u := by
        have := Option.some.injEq .. ▸ hkv
        exact DaemonEvent.GuestLaunched.injEq .. ▸ this
      subst hu
      exact ⟨keys_mem_of_mem m kv.1 kv.2 (by cases kv; exact hmem), by assumption⟩
    · cases hkv
  · rintro ⟨hks, hnone⟩
    rcases List.mem_map.mp hks with ⟨kv, hmem, hfst⟩
    refine List.mem_filterMap.mpr ⟨kv, hmem, ?_⟩
    rw [hfst, hnone]
    simp

theorem destroyed_mem_iff (last m : GuestMap) (u : Nat) :
    DaemonEvent.GuestDestroyed u ∈ destroyedEvents last m ↔
      u ∈ hmKeys last ∧ hmLookup m u = none := by
  constructor
  · intro he
    rcases List.mem_filterMap.mp he with ⟨kv, hmem, hkv⟩
    split at hkv
    · have hu : kv.1 = u := by
        have := Option.some.injEq .. ▸ hkv
        exact DaemonEvent.GuestDestroyed.injEq .. ▸ this
      subst hu
      exact ⟨keys_mem_of_mem last kv.1 kv.2 (by cases kv; exact hmem), by assumption⟩
    · cases hkv
  · rintro ⟨hks, hnone⟩
    rcases List.mem_map.mp hks with ⟨kv, hmem, hfst⟩
    refine List.mem_filterMap.mpr ⟨kv, hmem, ?_⟩
    rw [hfst, hnone]
    simp

theorem exited_mem_iff (last m : GuestMap) (hnd : (hmKeys m).Nodup) (u : Nat) (c : Int) :
    DaemonEvent.GuestExited u c ∈ exitedEvents last m ↔
      (∃ g, hmLookup m u = some g ∧ g.state.exit_code = some c) ∧
      (∃ l, hmLookup last u = some l ∧ l.state.exit_code = none) := by
  constructor
  · intro he
    rcases mem_exited_shape last m _ he with ⟨u', c', g, l, heq, hg, hl, hln, hgs⟩
    obtain ⟨hu, hc⟩ := DaemonEvent.GuestExited.injEq .. ▸ heq
    subst hu
    subst hc
    exact ⟨⟨g, hmLookup_of_mem_nodup m _ g hnd hg, hgs⟩, ⟨l, hl, hln⟩⟩
  · rintro ⟨⟨g, hg, hgs⟩, ⟨l, hl, hln⟩⟩
    refine List.mem_filterMap.mpr ⟨(u, g), mem_of_hmLookup_some m u g hg, ?_⟩
    simp only [hl, hln, hgs, Option.isSome_none, Bool.false_eq_true, ite_false]

/-- C8: each `evaluate` emits a guest-launched event exactly for the ids in
the new snapshot and not the previous one, a guest-destroyed event exactly
for the ids in the previous snapshot and not the new one, and a
guest-exited(code) event exactly for the ids present in both whose
previous exit code was absent and whose new exit code is the given one. -/
theorem C8_snapshot_diff_events (last : GuestMap) (listed : List GuestInfo) (u : Nat) (c : Int) :
    (DaemonEvent.GuestLaunched u ∈ (DaemonEventGenerator.evaluate last listed).events ↔
       u ∈ hmKeys (snapshotMap listed) ∧ hmLookup last u = none) ∧
    (DaemonEvent.GuestDestroyed u ∈ (DaemonEventGenerator.evaluate last listed).events ↔
       u ∈ hmKeys last ∧ hmLookup (snapshotMap listed) u = none) ∧
    (DaemonEvent.GuestExited u c ∈ (DaemonEventGenerator.evaluate last listed).events ↔
       (∃ g, hmLookup (snapshotMap listed) u = some g ∧ g.state.exit_code = some c) ∧
       (∃ l, hmLookup last u = some l ∧ l.state.exit_code = none)) := by
  have hnd := snapshotMap_keys_nodup listed
  simp only [DaemonEventGenerator.evaluate, List.mem_append]
  refine ⟨?_, ?_, ?_⟩
  · rw [← launched_mem_iff last (snapshotMap listed) u]
    constructor
    · rintro ((h | h) | h)
      · exact h
      · rcases mem_destroyed_shape _ _ _ h with ⟨u', he⟩
        cases he
      · rcases mem_exited_shape _ _ _ h with ⟨u', c', g, l, he, _⟩
        cases he
    · intro h
      exact Or.inl (Or.inl h)
  · rw [← destroyed_mem_iff last (snapshotMap listed) u]
    constructor
    · rintro ((h | h) | h)
      · rcases mem_launched_shape _ _ _ h with ⟨u', he⟩
        cases he
      · exact h
      · rcases mem_exited_shape _ _ _ h with ⟨u', c', g, l, he, _⟩
        cases he
    · intro h
      exact Or.inl (Or.inr h)
  · rw [← exited_mem_iff last (snapshotMap listed) hnd u c]
    constructor
    · rintro ((h | h) | h)
      · rcases mem_launched_shape _ _ _ h with ⟨u', he⟩
        cases he
      · rcases mem_destroyed_shape _ _ _ h with ⟨u', he⟩
        cases he
      · exact h
    · intro h
      exact Or.inr h

/-! ## Counting guest-exited events -/

theorem countExited_append (u : Nat) (a b : List DaemonEvent) :
    countExited u (a ++ b) = countExited u a + countExited u b :=
  List.countP_append ..

theorem countExited_launched_zero (last m : GuestMap) (u : Nat) :
    countExited u (launchedEvents last m) = 0 := by
  rw [countExited, List.countP_eq_zero]
  intro e he
  rcases mem_launched_shape last m e he with ⟨u', he'⟩
  subst he'
  simp

theorem countExited_destroyed_zero (last m : GuestMap) (u : Nat) :
    countExited u (destroyedEvents last m) = 0 := by
  rw [countExited, List.countP_eq_zero]
  intro e he
  rcases mem_destroyed_shape last m e he with ⟨u', he'⟩
  subst he'
  simp

theorem countExited_evaluate (last : GuestMap) (listed : List GuestInfo) (u : Nat) :
    countExited u (DaemonEventGenerator.evaluate last listed).events =
      countExited u (exitedEvents last (snapshotMap listed)) := by
  simp only [DaemonEventGenerator.evaluate]
  rw [countExited_append, countExited_append, countExited_launched_zero,
    countExited_destroyed_zero]
  omega

theorem countExited_zero_of_not_mem_keys (last m : GuestMap) (u : Nat)
    (h : u ∉ hmKeys m) : countExited u (exitedEvents last m) = 0 := by
  rw [countExited, List.countP_eq_zero]
  intro e he hp
  rcases mem_exited_shape last m e he with ⟨u', c', g, l, heq, hg, _, _, _⟩
  subst heq
  have hu : u' = u := by simpa using hp
  subst hu
  exact h (keys_mem_of_mem m _ g hg)

theorem countExited_zero_of_last_some (last m : GuestMap) (u : Nat) (l : GuestInfo)
    (hl : hmLookup last u = some l) (hs : l.state.exit_code.isSome = true) :
    countExited u (exitedEvents last m) = 0 := by
  rw [countExited, List.countP_eq_zero]
  intro e he hp
  rcases mem_exited_shape last m e he with ⟨u', c', g, l', heq, _, hl', hln, _⟩
  subst heq
  have hu : u' = u := by simpa using hp
  subst hu
  rw [hl] at hl'
  obtain rfl : l = l' := by injection hl'
  rw [hln] at hs
  simp at hs

theorem countExited_zero_of_new_none (last m : GuestMap) (u : Nat) (g : GuestInfo)
    (hnd : (hmKeys m).Nodup) (hg : hmLookup m u = some g)
    (hn : g.state.exit_code = none) :
    countExited u (exitedEvents last m) = 0 := by
  rw [countExited, List.countP_eq_zero]
  intro e he hp
  rcases mem_exited_shape last m e he with ⟨u', c', g', l', heq, hg', _, _, hgs⟩
  subst heq
  have hu : u' = u := by simpa using hp
  subst hu
  have hlk := hmLookup_of_mem_nodup m _ g' hnd hg'
  rw [hg] at hlk
  obtain rfl : g = g' := by injection hlk
  rw [hn] at hgs
  cases hgs

theorem exitedEvents_cons (last : GuestMap) (k : Nat) (g : GuestInfo) (rest : GuestMap) :
    exitedEvents last ((k, g) :: rest) =
      (match hmLookup last k with
       | none => exitedEvents last rest
       | some l =>
         if l.state.exit_code.isSome then exitedEvents last rest
         else
           match g.state.exit_code with
           | none => exitedEvents last rest
           | some code => DaemonEvent.GuestExited k code :: exitedEvents last rest) := by
  simp only [exitedEvents, List.filterMap_cons]
  cases hl : hmLookup last k
  · rfl
  · by_cases hls : ‹GuestInfo›.state.exit_code.isSome
    · simp [hls]
    · simp only [hls, Bool.false_eq_true, ite_false]
      cases hg : g.state.exit_code <;> simp

theorem countExited_exited_le_one (last : GuestMap) (u : Nat) :
    ∀ m : GuestMap, (hmKeys m).Nodup → countExited u (exitedEvents last m) ≤ 1 := by
  intro m
  induction m with
  | nil =>
    intro _
    simp [exitedEvents, countExited]
  | cons kv rest ih =>
    intro hnd
    obtain ⟨k, g⟩ := kv
    simp only [hmKeys_cons, List.nodup_cons] at hnd
    have hrest := ih hnd.2
    rw [exitedEvents_cons]
    cases hl : hmLookup last k with
    | none => exact hrest
    | some l =>
      by_cases hls : l.state.exit_code.isSome
      · simpa [hls] using hrest
      · simp only [hls, Bool.false_eq_true, ite_false]
        cases hg : g.state.exit_code with
        | none => exact hrest
        | some c =>
          rw [countExited, List.countP_cons]
          by_cases hku : k = u
          · subst hku
            have hz := countExited_zero_of_not_mem_keys last rest k hnd.1
            rw [countExited] at hz
            simp [hz]
          · rw [countExited] at hrest
            simp only [hku, decide_eq_true_eq]
            simpa [hku] using hrest

/-! ## Runs of the event generator -/

theorem evaluateRun_cons (last : GuestMap) (listed : List GuestInfo)
    (rest : List (List GuestInfo)) :
    evaluateRun last (listed :: rest) =
      (DaemonEventGenerator.evaluate last listed).events
        ++ evaluateRun (snapshotMap listed) rest := rfl

theorem evaluateRun_zero_of_present (u : Nat) :
    ∀ (snaps : List (List GuestInfo)) (last : GuestMap) (l : GuestInfo),
      hmLookup last u = some l → l.state.exit_code.isSome = true →
      (∀ s ∈ snaps, exitPresent u s = true) →
      countExited u (evaluateRun last snaps) = 0 := by
  intro snaps
  induction snaps with
  | nil =>
    intro last l _ _ _
    rfl
  | cons g gs ih =>
    intro last l hl hs hall
    rw [evaluateRun_cons, countExited_append, countExited_evaluate,
      countExited_zero_of_last_some last _ u l hl hs]
    have hg := hall g (List.mem_cons_self ..)
    unfold exitPresent at hg
    cases hgl : hmLookup (snapshotMap g) u with
    | none =>
      rw [hgl] at hg
      simp at hg
    | some g' =>
      rw [hgl] at hg
      rw [ih (snapshotMap g) g' hgl hg (fun s hs' => hall s (List.mem_cons_of_mem _ hs'))]

theorem chain_all_true (u : Nat) :
    ∀ (gs : List (List GuestInfo)) (g : List GuestInfo),
      List.Chain' (fun a b => exitPresent u a = true → exitPresent u b = true) (g :: gs) →
      exitPresent u g = true → ∀ s ∈ gs, exitPresent u s = true := by
  intro gs
  induction gs with
  | nil =>
    intro g _ _ s hs
    simp at hs
  | cons g2 rest ih =>
    intro g hch hg s hs
    rw [List.chain'_cons] at hch
    have hg2 := hch.1 hg
    rcases List.mem_cons.mp hs with rfl | hs'
    · exact hg2
    · exact ih g2 hch.2 hg2 s hs'

theorem evaluateRun_le_one (u : Nat) :
    ∀ (snaps : List (List GuestInfo)) (last : GuestMap),
      (∀ s ∈ snaps, u ∈ hmKeys (snapshotMap s)) →
      List.Chain' (fun a b => exitPresent u a = true → exitPresent u b = true) snaps →
      countExited u (evaluateRun last snaps) ≤ 1 := by
  intro snaps
  induction snaps with
  | nil =>
    intro last _ _
    simp [evaluateRun, countExited]
  | cons g gs ih =>
    intro last hin hch
    rw [evaluateRun_cons, countExited_append, countExited_evaluate]
    by_cases hgp : exitPresent u g = true
    · have h1 := countExited_exited_le_one last u (snapshotMap g) (snapshotMap_keys_nodup g)
      have hall := chain_all_true u gs g hch hgp
      unfold exitPresent at hgp
      cases hgl : hmLookup (snapshotMap g) u with
      | none =>
        rw [hgl] at hgp
        simp at hgp
      | some g' =>
        rw [hgl] at hgp
        have h2 := evaluateRun_zero_of_present u gs (snapshotMap g) g' hgl hgp hall
        omega
    · have hk := hin g (List.mem_cons_self ..)
      rcases hmLookup_isSome_of_mem_keys (snapshotMap g) u hk with ⟨g', hgl⟩
      have hnone : g'.state.exit_code = none := by
        unfold exitPresent at hgp
        rw [hgl] at hgp
        exact Option.not_isSome_iff_eq_none.mp (by simpa using hgp)
      rw [countExited_zero_of_new_none last (snapshotMap g) u g'
        (snapshotMap_keys_nodup g) hgl hnone]
      have h2 := ih (snapshotMap g) (fun s hs => hin s (List.mem_cons_of_mem _ hs)) hch.tail
      omega

/-- C9: for a guest that stays present in every snapshot, guest-exited is
emitted at most once: once the stored snapshot records its exit code as
present, and the exit code remains present in every later snapshot, no
further evaluation emits a guest-exited event for it; and a whole run from
the generator's initial empty snapshot emits at most one guest-exited
event for it. -/
theorem C9_exited_at_most_once (u : Nat) :
    (∀ (snaps : List (List GuestInfo)) (last : GuestMap) (l : GuestInfo),
       hmLookup last u = some l → l.state.exit_code.isSome = true →
       (∀ s ∈ snaps, exitPresent u s = true) →
       countExited u (evaluateRun last snaps) = 0) ∧
    (∀ snaps : List (List GuestInfo),
       (∀ s ∈ snaps, u ∈ hmKeys (snapshotMap s)) →
       List.Chain' (fun a b => exitPresent u a = true → exitPresent u b = true) snaps →
       countExited u (evaluateRun [] snaps) ≤ 1) :=
  ⟨fun snaps last l h1 h2 h3 => evaluateRun_zero_of_present u snaps last l h1 h2 h3,
   fun snaps h1 h2 => evaluateRun_le_one u snaps [] h1 h2⟩

/-- C9 witness: the three-snapshot run where guest 1 stays present and its
exit code appears in the second snapshot emits at most one exited event. -/
theorem C9_witness : countExited 1 (evaluateRun [] snapsFixture) ≤ 1 :=
  (C9_exited_at_most_once 1).2 snapsFixture (by decide)
    (by
      unfold snapsFixture
      rw [List.chain'_cons, List.chain'_cons]
      exact ⟨fun _ => by decide, fun _ => by decide, List.chain'_singleton _⟩)

/-! ## Index lemmas for byte lists -/

theorem getD_take_lt (l : List Nat) (n i : Nat) (h : i < n) :
    (l.take n).getD i 0 = l.getD i 0 := by
  simp [List.getD_eq_getElem?_getD, List.getElem?_take_of_lt h]

theorem getD_drop_add (l : List Nat) (n i : Nat) :
    (l.drop n).getD i 0 = l.getD (n + i) 0 := by
  simp [List.getD_eq_getElem?_getD, List.getElem?_drop]

theorem getD_append_lt (l1 l2 : List Nat) (i : Nat) (h : i < l1.length) :
    (l1 ++ l2).getD i 0 = l1.getD i 0 := by
  simp [List.getD_eq_getElem?_getD, List.getElem?_append_left h]

theorem getD_append_ge (l1 l2 : List Nat) (i : Nat) (h : l1.length ≤ i) :
    (l1 ++ l2).getD i 0 = l2.getD (i - l1.length) 0 := by
  simp [List.getD_eq_getElem?_getD, List.getElem?_append_right h]

theorem take_extend_getD (l : List Nat) (n : Nat) (h : n < l.length) :
    l.take n ++ [l.getD n 0] = l.take (n + 1) := by
  rw [List.take_succ]
  congr 1
  rw [List.getElem?_eq_getElem h]
  simp [List.getD_eq_getElem?_getD, List.getElem?_eq_getElem h]

/-! ## Write-back loop lemmas -/

theorem writeBack_length (bs : List Nat) :
    ∀ (packet : Frame) (off : Nat), (writeBack packet off bs).length = packet.length := by
  induction bs with
  | nil =>
    intro packet off
    rfl
  | cons b rest ih =>
    intro packet off
    simp only [writeBack]
    rw [ih]
    simp

theorem writeBack_getD_lo (bs : List Nat) :
    ∀ (packet : Frame) (off j : Nat), j < off →
      (writeBack packet off bs).getD j 0 = packet.getD j 0 := by
  induction bs with
  | nil =>
    intro packet off j _
    rfl
  | cons b rest ih =>
    intro packet off j hj
    simp only [writeBack]
    rw [ih _ _ _ (by omega)]
    simp [List.getD_eq_getElem?_getD, List.getElem?_set_ne (by omega : off ≠ j)]

theorem writeBack_getD_hi (bs : List Nat) :
    ∀ (packet : Frame) (off j : Nat), off + bs.length ≤ j →
      (writeBack packet off bs).getD j 0 = packet.getD j 0 := by
  induction bs with
  | nil =>
    intro packet off j _
    rfl
  | cons b rest ih =>
    intro packet off j hj
    simp only [List.length_cons] at hj
    simp only [writeBack]
    rw [ih _ _ _ (by omega)]
    simp [List.getD_eq_getElem?_getD, List.getElem?_set_ne (by omega : off ≠ j)]

theorem writeBack_getD_mid (bs : List Nat) :
    ∀ (packet : Frame) (off j : Nat), off ≤ j → j < off + bs.length → j < packet.length →
      (writeBack packet off bs).getD j 0 = bs.getD (j - off) 0 := by
  induction bs with
  | nil =>
    intro packet off j h1 h2 _
    simp at h2
    omega
  | cons b rest ih =>
    intro packet off j h1 h2 h3
    simp only [List.length_cons] at h2
    by_cases hj : j = off
    · subst hj
      simp only [writeBack]
      rw [writeBack_getD_lo rest _ _ _ (by omega)]
      simp [List.getD_eq_getElem?_getD, List.getElem?_set_self (by omega : j < packet.length)]
    · simp only [writeBack]
      rw [ih _ _ _ (by omega) (by omega) (by simpa using h3)]
      have hsub : j - off = (j - (off + 1)) + 1 := by omega
      rw [hsub, List.getD_cons_succ]

/-! ## Parser inversion lemmas -/

theorem eth_from_slice_inv (pkt : Frame) (h : Ethernet2Header) (p : Frame)
    (he : Ethernet2Header.from_slice pkt = some (h, p)) :
    14 ≤ pkt.length ∧
    h = { destination := pkt.take 6
          source := (pkt.drop 6).take 6
          ether_type := be16 (pkt.getD 12 0) (pkt.getD 13 0) } ∧
    p = pkt.drop 14 := by
  unfold Ethernet2Header.from_slice at he
  split at he
  · cases he
  · rename_i hlen
    simp only [Option.some.injEq, Prod.mk.injEq] at he
    exact ⟨by omega, he.1.symm, he.2.symm⟩

theorem ipv4_from_slice_inv (p : Frame) (ip : Ipv4Header) (p2 : Frame)
    (he : Ipv4Header.from_slice p = some (ip, p2)) :
    20 ≤ p.length ∧ 5 ≤ (p.getD 0 0) % 16 ∧ ((p.getD 0 0) % 16) * 4 ≤ p.length ∧
    ip = { ihl := (p.getD 0 0) % 16
           protocol := p.getD 9 0
           source := (p.drop 12).take 4
           destination := (p.drop 16).take 4 } ∧
    p2 = p.drop (((p.getD 0 0) % 16) * 4) := by
  unfold Ipv4Header.from_slice at he
  split at he
  · cases he
  split at he
  · cases he
  split at he
  · cases he
  split at he
  · cases he
  rename_i h1 h2 h3 h4
  rw [not_lt] at h1 h3 h4
  simp only [Option.some.injEq, Prod.mk.injEq] at he
  exact ⟨h1, h3, h4, he.1.symm, he.2.symm⟩

theorem tcp_from_slice_inv (s : Frame) (t : TcpHeader) (rest : Frame)
    (he : TcpHeader.from_slice s = some (t, rest)) :
    20 ≤ s.length ∧ 5 ≤ (s.getD 12 0) / 16 ∧ ((s.getD 12 0) / 16) * 4 ≤ s.length ∧
    t = { head12 := s.take 12
          data_offset := (s.getD 12 0) / 16
          ns := (s.getD 12 0) % 2 = 1
          flags := s.getD 13 0
          window := (s.drop 14).take 2
          checksum := be16 (s.getD 16 0) (s.getD 17 0)
          urgent := (s.drop 18).take 2
          options := (s.drop 20).take (((s.getD 12 0) / 16) * 4 - 20) } ∧
    rest = s.drop (((s.getD 12 0) / 16) * 4) := by
  unfold TcpHeader.from_slice at he
  split at he
  · cases he
  split at he
  · cases he
  split at he
  · cases he
  rename_i h1 h2 h3
  rw [not_lt] at h1 h2 h3
  simp only [Option.some.injEq, Prod.mk.injEq] at he
  exact ⟨h1, h2, h3, he.1.symm, he.2.symm⟩

theorem TcpHeader.calc_checksum_ipv4_inv (t : TcpHeader) (ip : Ipv4Header)
    (payload : Frame) (c : Nat) (hc : t.calc_checksum_ipv4 ip payload = some c) :
    c = onesComplement16 (wordSum
      (ip.source ++ ip.destination
        ++ [0, IpNumberTCP, (t.header_len + payload.length) / 256,
            (t.header_len + payload.length) % 256]
        ++ ({ t with checksum := 0 }).to_bytes ++ payload)) := by
  unfold TcpHeader.calc_checksum_ipv4 at hc
  split at hc
  · cases hc
  · simp only [Option.some.injEq] at hc
    exact hc.symm

theorem TcpHeader.to_bytes_length (t : TcpHeader) :
    t.to_bytes.length =
      t.head12.length + t.window.length + t.urgent.length + t.options.length + 4 := by
  simp [TcpHeader.to_bytes]
  omega

/-- C10: whenever the Ethernet, IPv4 and TCP headers of a frame all parse,
every index written by the TCP-header write-back loop — the Ethernet
header length plus the IPv4 header length plus the offset inside the
serialized TCP header — is strictly below the frame length, so the
in-place write-back never indexes out of bounds. -/
theorem C10_writeback_in_bounds (packet : Frame) (eth : Ethernet2Header) (p : Frame)
    (ip : Ipv4Header) (p2 : Frame) (t : TcpHeader) (p3 : Frame) (c : Nat)
    (h1 : Ethernet2Header.from_slice packet = some (eth, p))
    (h2 : Ipv4Header.from_slice p = some (ip, p2))
    (h3 : TcpHeader.from_slice p2 = some (t, p3)) :
    ∀ i < ({ t with checksum := c } : TcpHeader).to_bytes.length,
      Ethernet2Header.LEN + ip.header_len + i < packet.length := by
  obtain ⟨e1, _, ep⟩ := eth_from_slice_inv packet eth p h1
  obtain ⟨i1, i2, i3, irec, ip2⟩ := ipv4_from_slice_inv p ip p2 h2
  obtain ⟨t1, t2, t3, trec, _⟩ := tcp_from_slice_inv p2 t p3 h3
  intro i hi
  subst irec
  subst trec
  rw [TcpHeader.to_bytes_length] at hi
  simp only [List.length_take, List.length_drop] at hi
  simp only [Ipv4Header.header_len, Ethernet2Header.LEN]
  subst ip2
  subst ep
  simp only [List.length_drop] at *
  omega

/-- C10 witness: for the concrete 54-byte TCP frame, the first written
index (offset 0 in the serialized TCP header) is in bounds. -/
theorem C10_witness : Ethernet2Header.LEN + 20 + 0 < tcpFrame.length :=
  C10_writeback_in_bounds tcpFrame _ _ _ _ _ _ 0 rfl rfl rfl 0 (by decide)

/-! ## Serialization of a parsed TCP header -/

/-- Serializing a parsed TCP header with a replaced checksum reproduces
the original header bytes except for the checksum field — provided the
three reserved bits of header byte 12 were zero, since the parser drops
them and the serializer writes them back as zero. -/
theorem to_bytes_parsed (p2 : Frame) (t : TcpHeader) (p3 : Frame)
    (h3 : TcpHeader.from_slice p2 = some (t, p3))
    (hrsv : (p2.getD 12 0) % 16 < 2) (ck : Nat) :
    ({ t with checksum := ck } : TcpHeader).to_bytes =
      p2.take 16 ++ ck / 256 :: ck % 256 ::
        (p2.drop 18).take (t.data_offset * 4 - 18) := by
  obtain ⟨t1, t2, t3, trec, _⟩ := tcp_from_slice_inv p2 t p3 h3
  subst trec
  simp only [TcpHeader.to_bytes]
  have hmod : (p2.getD 12 0) % 2 = (p2.getD 12 0) % 16 := by
    have h16 : (p2.getD 12 0) % 16 % 2 = (p2.getD 12 0) % 2 :=
      Nat.mod_mod_of_dvd _ (by norm_num)
    omega
  have hb12 : (p2.getD 12 0) / 16 * 16
      + (if ((p2.getD 12 0) % 2 = 1 : Prop) then 1 else 0) = p2.getD 12 0 := by
    by_cases hb : (p2.getD 12 0) % 2 = 1
    · simp only [hb, if_pos]
      omega
    · simp only [hb, if_neg, not_false_iff]
      omega
  have e16 : p2.take 16 = p2.take 12 ++ [p2.getD 12 0] ++ [p2.getD 13 0]
      ++ (p2.drop 14).take 2 := by
    have s13 := take_extend_getD p2 12 (by omega)
    have s14 := take_extend_getD p2 13 (by omega)
    have s16 := List.take_add p2 14 2
    rw [show (16 : Nat) = 14 + 2 from rfl, s16, ← s14, ← s13]
  have etail : (p2.drop 18).take (((p2.getD 12 0) / 16) * 4 - 18) =
      (p2.drop 18).take 2 ++ (p2.drop 20).take (((p2.getD 12 0) / 16) * 4 - 20) := by
    have harith : ((p2.getD 12 0) / 16) * 4 - 18 = 2 + (((p2.getD 12 0) / 16) * 4 - 20) := by
      omega
    rw [harith, List.take_add, List.drop_drop]
  rw [e16, etail]
  simp only [decide_eq_true_eq, hb12]
  simp [List.append_assoc]

/-- The checksum the code computes equals the spec's formula: the
ones'-complement checksum over the pseudo-header, the original TCP header
bytes with the checksum field zeroed, and the payload. -/
theorem checksum_eq_spec (p2 : Frame) (t : TcpHeader) (p3 : Frame) (ip : Ipv4Header)
    (c : Nat) (h3 : TcpHeader.from_slice p2 = some (t, p3))
    (hrsv : (p2.getD 12 0) % 16 < 2)
    (hc : t.calc_checksum_ipv4 ip p3 = some c) :
    c = tcpChecksumSpec ip (p2.take (t.data_offset * 4)) p3 := by
  obtain ⟨t1, t2, t3, trec, _⟩ := tcp_from_slice_inv p2 t p3 h3
  have hcv := TcpHeader.calc_checksum_ipv4_inv t ip p3 c hc
  have hdo : t.data_offset = (p2.getD 12 0) / 16 := by rw [trec]
  have hopt : t.options.length = t.data_offset * 4 - 20 := by
    rw [trec]
    simp only [List.length_take, List.length_drop]
    omega
  have hlen : t.header_len = t.data_offset * 4 := by
    rw [TcpHeader.header_len, hopt]
    omega
  have htake_len : (p2.take (t.data_offset * 4)).length = t.data_offset * 4 := by
    simp only [List.length_take]
    omega
  have hzero : ({ t with checksum := 0 } : TcpHeader).to_bytes =
      (p2.take (t.data_offset * 4)).take 16 ++ [0, 0]
        ++ (p2.take (t.data_offset * 4)).drop 18 := by
    rw [to_bytes_parsed p2 t p3 h3 hrsv 0, List.take_take, List.drop_take]
    have hmin : min 16 (t.data_offset * 4) = 16 := by omega
    rw [hmin]
    simp
  rw [hcv, tcpChecksumSpec, hzero, htake_len, hlen]

/-- Index-by-index behaviour of the in-place write-back of a repaired TCP
header: positions outside the two checksum bytes keep the original frame
bytes, and the checksum bytes receive the recomputed value. -/
theorem writeBack_checksum_getD (packet p2 bs : Frame) (off d c : Nat)
    (hp2 : p2 = packet.drop off) (hd : 5 ≤ d) (hdlen : d * 4 ≤ p2.length)
    (hbs : bs = p2.take 16 ++ c / 256 :: c % 256 :: (p2.drop 18).take (d * 4 - 18)) :
    (∀ j, j ≠ off + 16 → j ≠ off + 17 →
        (writeBack packet off bs).getD j 0 = packet.getD j 0) ∧
    (writeBack packet off bs).getD (off + 16) 0 = c / 256 ∧
    (writeBack packet off bs).getD (off + 17) 0 = c % 256 := by
  have hlenp2 : p2.length = packet.length - off := by
    rw [hp2]
    simp
  have hoffle : off + p2.length ≤ packet.length := by
    rw [hp2]
    simp
    omega
  have htake16 : (p2.take 16).length = 16 := by
    simp [List.length_take]
    omega
  have hbslen : bs.length = d * 4 := by
    rw [hbs]
    simp [List.length_take, List.length_drop]
    omega
  have hbound : off + bs.length ≤ packet.length := by omega
  have hmid : ∀ j, off ≤ j → j < off + d * 4 →
      (writeBack packet off bs).getD j 0 = bs.getD (j - off) 0 := by
    intro j hj1 hj2
    exact writeBack_getD_mid bs packet off j hj1 (by omega) (by omega)
  refine ⟨?_, ?_, ?_⟩
  · intro j h16 h17
    by_cases hlo : j < off
    · exact writeBack_getD_lo bs packet off j hlo
    · by_cases hhi : off + bs.length ≤ j
      · exact writeBack_getD_hi bs packet off j hhi
      · rw [hmid j (by omega) (by omega), hbs]
        by_cases hk : j - off < 16
        · rw [getD_append_lt _ _ _ (by omega), getD_take_lt _ _ _ hk, hp2, getD_drop_add]
          congr 1
          omega
        · have hk18 : 18 ≤ j - off := by omega
          rw [getD_append_ge _ _ _ (by omega), htake16]
          have hidx : j - off - 16 = (j - off - 18) + 1 + 1 := by omega
          rw [hidx, List.getD_cons_succ, List.getD_cons_succ,
            getD_take_lt _ _ _ (by omega), getD_drop_add, hp2, getD_drop_add]
          congr 1
          omega
  · rw [hmid (off + 16) (by omega) (by omega), hbs]
    have hidx : off + 16 - off = 16 := by omega
    rw [hidx, getD_append_ge _ _ _ (by omega), htake16]
    simp
  · rw [hmid (off + 17) (by omega) (by omega), hbs]
    have hidx : off + 17 - off = 17 := by omega
    rw [hidx, getD_append_ge _ _ _ (by omega), htake16]
    simp

/-- Per-frame pass-through: a forwarded frame that is not TCP-over-IPv4 is
forwarded byte-for-byte unchanged. -/
theorem processFrame_passthrough (packet : Frame) (eth : Ethernet2Header) (p : Frame)
    (h1 : Ethernet2Header.from_slice packet = some (eth, p))
    (hcase : eth.ether_type ≠ EtherTypeIPV4 ∨
      ∃ ip p2, Ipv4Header.from_slice p = some (ip, p2) ∧ ip.protocol ≠ IpNumberTCP) :
    forwardedPacket packet = some packet := by
  rcases hcase with hne | ⟨ip, p2, h2, hne⟩
  · simp [forwardedPacket, processFrame, h1, hne]
  · by_cases heth : eth.ether_type = EtherTypeIPV4
    · simp [forwardedPacket, processFrame, h1, heth, h2, hne]
    · simp [forwardedPacket, processFrame, h1, heth]

/-- TCP-over-IPv4 repair, assembled: the forwarded frame is the submitted
frame with the checksum field overwritten (and nothing else changed, given
zero reserved bits), and the written checksum matches the spec formula. -/
theorem processFrame_tcp_repair (packet : Frame) (eth : Ethernet2Header) (p p2 p3 : Frame)
    (ip : Ipv4Header) (t : TcpHeader) (c : Nat)
    (h1 : Ethernet2Header.from_slice packet = some (eth, p))
    (heth : eth.ether_type = EtherTypeIPV4)
    (h2 : Ipv4Header.from_slice p = some (ip, p2))
    (hproto : ip.protocol = IpNumberTCP)
    (h3 : TcpHeader.from_slice p2 = some (t, p3))
    (hc : t.calc_checksum_ipv4 ip p3 = some c)
    (hrsv : (p2.getD 12 0) % 16 < 2) :
    ∃ out, forwardedPacket packet = some out ∧
      out.length = packet.length ∧
      c = tcpChecksumSpec ip (p2.take (t.data_offset * 4)) p3 ∧
      (∀ j, j ≠ Ethernet2Header.LEN + ip.header_len + 16 →
         j ≠ Ethernet2Header.LEN + ip.header_len + 17 →
         out.getD j 0 = packet.getD j 0) ∧
      out.getD (Ethernet2Header.LEN + ip.header_len + 16) 0 = c / 256 ∧
      out.getD (Ethernet2Header.LEN + ip.header_len + 17) 0 = c % 256 := by
  obtain ⟨e1, erec, ep⟩ := eth_from_slice_inv packet eth p h1
  obtain ⟨i1, i2, i3, irec, ip2⟩ := ipv4_from_slice_inv p ip p2 h2
  obtain ⟨t1, t2, t3, trec, _⟩ := tcp_from_slice_inv p2 t p3 h3
  have hihl : ip.header_len = ((p.getD 0 0) % 16) * 4 := by
    rw [irec, Ipv4Header.header_len]
  have hoff : Ethernet2Header.LEN + ip.header_len = 14 + ((p.getD 0 0) % 16) * 4 := by
    rw [hihl]
    rfl
  have hp2off : p2 = packet.drop (Ethernet2Header.LEN + ip.header_len) := by
    rw [hoff, ip2, ep, List.drop_drop]
  have hdo : t.data_offset = (p2.getD 12 0) / 16 := by rw [trec]
  have hd : 5 ≤ t.data_offset := by omega
  have hdlen : t.data_offset * 4 ≤ p2.length := by omega
  have hbs := to_bytes_parsed p2 t p3 h3 hrsv c
  have hW := writeBack_checksum_getD packet p2
    (({ t with checksum := c } : TcpHeader).to_bytes)
    (Ethernet2Header.LEN + ip.header_len) t.data_offset c hp2off hd hdlen hbs
  refine ⟨writeBack packet (Ethernet2Header.LEN + ip.header_len)
      (({ t with checksum := c } : TcpHeader).to_bytes),
    ?_, writeBack_length _ _ _, checksum_eq_spec p2 t p3 ip c h3 hrsv hc,
    hW.1, hW.2.1, hW.2.2⟩
  simp [forwardedPacket, processFrame, h1, heth, h2, hproto, h3, hc]

/-- C4 counterexample: `rsvdFrame` is a fully well-formed TCP-over-IPv4
frame except that the three reserved bits of TCP header byte 12 are set
(0x5E instead of 0x50). The frame parses and is forwarded, but the
forwarded frame differs from the submitted one at byte index 46 — inside
the TCP header yet outside the checksum field, which occupies indices
50 and 51 (Ethernet 14 + IPv4 20 + checksum offset 16) — because the
serializer rewrites the reserved bits to zero. -/
theorem C4_counterexample :
    (Ipv4Header.from_slice (rsvdFrame.drop 14)).isSome = true ∧
    (TcpHeader.from_slice (rsvdFrame.drop 34)).isSome = true ∧
    (forwardedPacket rsvdFrame).map (fun out => out.getD 46 0) = some 80 ∧
    rsvdFrame.getD 46 0 = 94 ∧
    (46 : Nat) ≠ Ethernet2Header.LEN + 20 + 16 ∧
    (46 : Nat) ≠ Ethernet2Header.LEN + 20 + 17 := by
  exact ⟨rfl, rfl, rfl, rfl, by decide, by decide⟩

/-- C4 (amended): for every TCP-over-IPv4 frame whose headers parse, whose
checksum computation succeeds, and whose TCP reserved bits are zero, the
forwarded frame equals the submitted frame except that the 2-byte TCP
checksum field at Ethernet header length + IPv4 header length + 16 is
overwritten in place with the RFC 791/793 ones'-complement checksum over
the IPv4 pseudo-header, the TCP header with checksum zeroed, and the
payload (if the reserved bits are nonzero, the rewrite also zeroes them —
see the counterexample); and every forwarded non-TCP or non-IPv4 frame
passes through byte-for-byte unchanged. -/
theorem C4_checksum_repair :
    (∀ (packet : Frame) (eth : Ethernet2Header) (p p2 p3 : Frame) (ip : Ipv4Header)
       (t : TcpHeader) (c : Nat),
       Ethernet2Header.from_slice packet = some (eth, p) →
       eth.ether_type = EtherTypeIPV4 →
       Ipv4Header.from_slice p = some (ip, p2) →
       ip.protocol = IpNumberTCP →
       TcpHeader.from_slice p2 = some (t, p3) →
       t.calc_checksum_ipv4 ip p3 = some c →
       (p2.getD 12 0) % 16 < 2 →
       ∃ out, forwardedPacket packet = some out ∧ out.length = packet.length ∧
         c = tcpChecksumSpec ip (p2.take (t.data_offset * 4)) p3 ∧
         (∀ j, j ≠ Ethernet2Header.LEN + ip.header_len + 16 →
            j ≠ Ethernet2Header.LEN + ip.header_len + 17 →
            out.getD j 0 = packet.getD j 0) ∧
         out.getD (Ethernet2Header.LEN + ip.header_len + 16) 0 = c / 256 ∧
         out.getD (Ethernet2Header.LEN + ip.header_len + 17) 0 = c % 256) ∧
    (∀ (packet : Frame) (eth : Ethernet2Header) (p : Frame),
       Ethernet2Header.from_slice packet = some (eth, p) →
       (eth.ether_type ≠ EtherTypeIPV4 ∨
         ∃ ip p2, Ipv4Header.from_slice p = some (ip, p2) ∧ ip.protocol ≠ IpNumberTCP) →
       forwardedPacket packet = some packet) :=
  ⟨fun packet eth p p2 p3 ip t c h1 heth h2 hproto h3 hc hrsv =>
     processFrame_tcp_repair packet eth p p2 p3 ip t c h1 heth h2 hproto h3 hc hrsv,
   fun packet eth p h1 hcase => processFrame_passthrough packet eth p h1 hcase⟩

/-- C4 witness: the concrete TCP frame is forwarded with exactly its two
checksum bytes (indices 14 + 20 + 16 and 17, i.e. 50 and 51) rewritten to
the computed checksum 0x9ACD = 39629, and the concrete ARP frame passes
through unchanged. -/
theorem C4_witness :
    (∃ out, forwardedPacket tcpFrame = some out ∧ out.length = tcpFrame.length ∧
       39629 = tcpChecksumSpec tcpFrameIp
         (tcpFrameTcpBytes.take (tcpFrameTcp.data_offset * 4)) [] ∧
       (∀ j, j ≠ Ethernet2Header.LEN + tcpFrameIp.header_len + 16 →
          j ≠ Ethernet2Header.LEN + tcpFrameIp.header_len + 17 →
          out.getD j 0 = tcpFrame.getD j 0) ∧
       out.getD (Ethernet2Header.LEN + tcpFrameIp.header_len + 16) 0 = 39629 / 256 ∧
       out.getD (Ethernet2Header.LEN + tcpFrameIp.header_len + 17) 0 = 39629 % 256) ∧
    forwardedPacket arpFrame = some arpFrame :=
  ⟨C4_checksum_repair.1 tcpFrame tcpFrameEth tcpFrameIpBytes tcpFrameTcpBytes []
     tcpFrameIp tcpFrameTcp 39629 rfl rfl rfl rfl rfl rfl (by decide),
   C4_checksum_repair.2 arpFrame arpFrameEth [1, 2, 3] rfl (Or.inl (by decide))⟩

end Hypha
